import Mathlib

/-!
Shallow embedding of the contour assembly and label-placement engine
(`runs/relativeRiskAnalysis/makeContourLabels.py`, Python 2) together with
proofs about the properties stated in the component specification.

Machine floating point (CPython doubles) is modelled exactly over `ℚ`:
a binary64 operation computes the exact rational result and rounds it to
the nearest representable value (53-bit significand, round-half-to-even).
Overflow to infinity is outside the range exercised by any input below and
is not modelled.  Python list indexing (negative indices, `IndexError`) and
slicing are modelled by explicit total functions, and every operation that
can raise in Python returns `Except String`/`Option` here.
-/

set_option maxRecDepth 10000

namespace MakeContourLabels

/-! ## Binary64 rounding model -/

/-- Round a rational to the nearest integer, ties to even
(the IEEE-754 tie-breaking rule). -/
def rndEven (q : ℚ) : ℤ :=
  if q - ⌊q⌋ < 1/2 then ⌊q⌋
  else if 1/2 < q - ⌊q⌋ then ⌊q⌋ + 1
  else if ⌊q⌋ % 2 = 0 then ⌊q⌋ else ⌊q⌋ + 1

/-- Fuel-based binary logarithm (structurally recursive so that concrete
values evaluate inside the kernel); agrees with `Nat.log 2` when the fuel
is at least the argument. -/
def log2fuel : ℕ → ℕ → ℕ
  | 0, _ => 0
  | fuel + 1, n => if n < 2 then 0 else log2fuel fuel (n / 2) + 1

/-- Fuel-based binary ceiling logarithm; agrees with `Nat.clog 2`. -/
def clog2fuel : ℕ → ℕ → ℕ
  | 0, _ => 0
  | fuel + 1, n => if n ≤ 1 then 0 else clog2fuel fuel ((n + 1) / 2) + 1

/-- The binade exponent `⌊log₂ x⌋` of a positive rational, computed with
kernel-reducible recursion; equal to `Int.log 2 x` (proved below). -/
def ratLog2 (x : ℚ) : ℤ :=
  if 1 ≤ x then (log2fuel ⌊x⌋.toNat ⌊x⌋.toNat : ℤ)
  else -(clog2fuel ⌈x⁻¹⌉.toNat ⌈x⁻¹⌉.toNat : ℤ)

theorem log2fuel_eq : ∀ (fuel n : ℕ), n ≤ fuel → log2fuel fuel n = Nat.log 2 n := by
  intro fuel
  induction fuel with
  | zero =>
    intro n h
    have : n = 0 := by omega
    rw [this]
    simp [log2fuel]
  | succ f ih =>
    intro n h
    unfold log2fuel
    by_cases h2 : n < 2
    · rw [if_pos h2]
      symm
      simp [Nat.log_eq_zero_iff]
      omega
    · rw [if_neg h2, ih (n / 2) (by omega)]
      conv_rhs => rw [Nat.log]
      rw [dif_pos ⟨by omega, by omega⟩]

theorem clog2fuel_eq : ∀ (fuel n : ℕ), n ≤ fuel → clog2fuel fuel n = Nat.clog 2 n := by
  intro fuel
  induction fuel with
  | zero =>
    intro n h
    have : n = 0 := by omega
    rw [this]
    simp [clog2fuel]
  | succ f ih =>
    intro n h
    unfold clog2fuel
    by_cases h2 : n ≤ 1
    · rw [if_pos h2]
      symm
      rcases (by omega : n = 0 ∨ n = 1) with h0 | h0 <;> rw [h0] <;> simp
    · rw [if_neg h2, ih ((n + 1) / 2) (by omega)]
      conv_rhs => rw [Nat.clog]
      rw [dif_pos ⟨by omega, by omega⟩]
      norm_num

theorem ratLog2_eq (x : ℚ) : ratLog2 x = Int.log 2 x := by
  unfold ratLog2
  split
  · next h =>
    rw [Int.log_of_one_le_right 2 h, log2fuel_eq _ _ le_rfl, Int.floor_toNat]
  · next h =>
    rw [Int.log_of_right_le_one 2 (le_of_lt (lt_of_not_le h)),
      clog2fuel_eq _ _ le_rfl, Int.ceil_toNat]

/-- Round a rational to the nearest IEEE-754 binary64 value (viewed as a
rational): find the binade exponent `e` with `2^e ≤ |x| < 2^(e+1)` and round
to the nearest multiple of `2^(e-52)`, ties to even.  Exponent overflow and
underflow are not modelled (all values arising from the program inputs used
here are far inside the normal range). -/
def floatRound (x : ℚ) : ℚ :=
  if x = 0 then 0
  else (rndEven (x / 2 ^ (ratLog2 |x| - 52)) : ℚ) * 2 ^ (ratLog2 |x| - 52)

/-- Shorthand: the binary64 value of a rational (used for decimal literals
appearing in the source and for `float(...)` conversions). -/
def fl (x : ℚ) : ℚ := floatRound x

/-- Python `float * float`: exact product, rounded. -/
def pyMul (a b : ℚ) : ℚ := floatRound (a * b)

/-- Python `float / float` (nonzero divisor in every use): exact quotient,
rounded. -/
def pyDiv (a b : ℚ) : ℚ := floatRound (a / b)

/-- Python `int(float)`: truncation toward zero. -/
def pyInt (q : ℚ) : ℤ :=
  if q < 0 then -⌊-q⌋ else ⌊q⌋

/-! ## Data model (classes `Contour` and `Contour.DataPoint`) -/

/-- `Contour.DataPoint`: the exact source text of the line and the three
captured fields, all kept as strings as in the source. -/
structure DataPoint where
  text : String
  x : String
  y : String
  z : String
deriving DecidableEq

/-- `DataPoint.__eq__`: equality of two data points is equality of their
source text. -/
def dpEq (a b : DataPoint) : Bool := a.text == b.text

/-- `Contour`: a label and an ordered list of data points. -/
structure Contour where
  label : String
  points : List DataPoint
deriving DecidableEq

/-! ## Python `float(string)` on the regex character class `[-+0-9.]` -/

def isDigitCh (c : Char) : Bool := '0' ≤ c && c ≤ '9'

def natOfDigits (l : List Char) : ℕ :=
  l.foldl (fun a c => a * 10 + (c.toNat - 48)) 0

/-- Python `float(s)` restricted to the strings producible by the data-line
regex capture class `[-+0-9.]+`: an optional single leading sign, then
digits with at most one decimal point and at least one digit.  Returns the
exact decimal value; `none` models `ValueError`. -/
def parseQ (s : String) : Option ℚ :=
  let cs := s.toList
  let sgn : ℚ × List Char :=
    match cs with
    | '+' :: r => (1, r)
    | '-' :: r => (-1, r)
    | r => (1, r)
  let ip := sgn.2.takeWhile isDigitCh
  let rest := sgn.2.dropWhile isDigitCh
  match rest with
  | [] => if ip = [] then none else some (sgn.1 * natOfDigits ip)
  | '.' :: r =>
    let fp := r.takeWhile isDigitCh
    let r2 := r.dropWhile isDigitCh
    if r2 ≠ [] then none
    else if ip = [] ∧ fp = [] then none
    else some (sgn.1 * ((natOfDigits ip : ℚ) + (natOfDigits fp : ℚ) / 10 ^ fp.length))
  | _ => none

/-! ## The two line regexes -/

/-- Python `\s` (no newline appears inside a split line, but the class is
kept complete). -/
def pySpace (c : Char) : Bool :=
  c = ' ' || c = '\t' || c = '\n' || c = '\r' || c = '\x0b' || c = '\x0c'

/-- The character class `[-+0-9.]` used by both capture groups. -/
def fieldCh (c : Char) : Bool :=
  c = '-' || c = '+' || c = '.' || isDigitCh c

/-- Expect a literal character sequence. -/
def expectChars : List Char → List Char → Option (List Char)
  | [], r => some r
  | c :: cs, d :: r => if c = d then expectChars cs r else none
  | _ :: _, [] => none

/-- `headpat = ^#\s*[Cc]ontour\s+\d+\s*,\s*[Ll]abel\s*:\s*([-+.0-9]+)\s*$`;
returns the captured label on a match.  All adjacent regex pieces have
disjoint character classes, so greedy matching is equivalent to this
deterministic scan. -/
def headMatch (s : String) : Option String := do
  let cs := s.toList
  let cs ← match cs with | '#' :: r => some r | _ => none
  let cs := cs.dropWhile pySpace
  let cs ← match cs with
    | 'C' :: r => some r
    | 'c' :: r => some r
    | _ => none
  let cs ← expectChars (("ontour").toList) cs
  let cs ← match cs with
    | c :: r => if pySpace c then some (r.dropWhile pySpace) else none
    | [] => none
  let cs ← match cs with
    | c :: r => if isDigitCh c then some (r.dropWhile isDigitCh) else none
    | [] => none
  let cs := cs.dropWhile pySpace
  let cs ← match cs with | ',' :: r => some r | _ => none
  let cs := cs.dropWhile pySpace
  let cs ← match cs with
    | 'L' :: r => some r
    | 'l' :: r => some r
    | _ => none
  let cs ← expectChars (("abel").toList) cs
  let cs := cs.dropWhile pySpace
  let cs ← match cs with | ':' :: r => some r | _ => none
  let cs := cs.dropWhile pySpace
  let lab := cs.takeWhile fieldCh
  let rest := cs.dropWhile fieldCh
  if lab = [] then none
  else if rest.dropWhile pySpace = [] then some (String.mk lab) else none

/-- `datapat = ^\s*([-+0-9.]+)\s+([-+0-9.]+)\s+([-+0-9.]+)\s*$`; returns
the three captured fields on a match. -/
def dataMatch (s : String) : Option (String × String × String) := do
  let cs := (s.toList).dropWhile pySpace
  let f1 := cs.takeWhile fieldCh
  let cs := cs.dropWhile fieldCh
  let _ ← if f1 = [] then none else some ()
  let cs ← match cs with
    | c :: r => if pySpace c then some (r.dropWhile pySpace) else none
    | [] => none
  let f2 := cs.takeWhile fieldCh
  let cs := cs.dropWhile fieldCh
  let _ ← if f2 = [] then none else some ()
  let cs ← match cs with
    | c :: r => if pySpace c then some (r.dropWhile pySpace) else none
    | [] => none
  let f3 := cs.takeWhile fieldCh
  let cs := cs.dropWhile fieldCh
  let _ ← if f3 = [] then none else some ()
  if cs.dropWhile pySpace = [] then
    some (String.mk f1, String.mk f2, String.mk f3)
  else none

/-! ## Contour record parser (source lines 36-67) -/

structure ParseState where
  current : Option Contour
  acc : List Contour
deriving DecidableEq

/-- The data-line branch of the classification loop (source lines 47-56):
open a contour if none is open, close and reopen on a label mismatch, then
append the point. -/
def dataStep (st : ParseState) (line x y z : String) : ParseState :=
  match st.current with
  | none => ⟨some ⟨z, [⟨line, x, y, z⟩]⟩, st.acc⟩
  | some c =>
    if c.label ≠ z then ⟨some ⟨z, [⟨line, x, y, z⟩]⟩, st.acc ++ [c]⟩
    else ⟨some { c with points := c.points ++ [⟨line, x, y, z⟩] }, st.acc⟩

/-- One iteration of the line-classification loop (lines 41-62). -/
def parseLine (st : ParseState) (line : String) : ParseState :=
  match headMatch line with
  | some label =>
    match st.current with
    | some c => ⟨some ⟨label, []⟩, st.acc ++ [c]⟩
    | none => ⟨some ⟨label, []⟩, st.acc⟩
  | none =>
    match dataMatch line with
    | some (x, y, z) => dataStep st line x y z
    | none =>
      if line = "" then
        match st.current with
        | some c => ⟨none, st.acc ++ [c]⟩
        | none => ⟨none, st.acc⟩
      else st

/-- The full parser: fold over the lines, close any open contour at end of
input, and drop zero-point contours (lines 41-67). -/
def parseContours (lines : List String) : List Contour :=
  let st := lines.foldl parseLine ⟨none, []⟩
  let all := match st.current with
    | some c => st.acc ++ [c]
    | none => st.acc
  all.filter (fun c => 0 < c.points.length)

/-! ## Python list indexing and slicing -/

/-- Normalisation of a Python index against a list length: negative
indices count from the end. -/
def normIdx (L : ℕ) (n : ℤ) : ℤ := if n < 0 then n + L else n

/-- Python `l[n]` for `n : int`: negative indices count from the end;
`none` models `IndexError`. -/
def pyGetI (pts : List DataPoint) (n : ℤ) : Option DataPoint :=
  if normIdx pts.length n < 0 then none
  else pts[(normIdx pts.length n).toNat]?

/-- Python `l[0:b]`: negative `b` counts from the end, out-of-range bounds
clamp; never raises. -/
def pySliceTo (pts : List DataPoint) (b : ℤ) : List DataPoint :=
  pts.take (if b < 0 then max 0 (b + pts.length) else min b pts.length).toNat

/-- Python `l[a:]`: negative `a` counts from the end, out-of-range bounds
clamp; never raises. -/
def pySliceFrom (pts : List DataPoint) (a : ℤ) : List DataPoint :=
  pts.drop (if a < 0 then max 0 (a + pts.length) else min a pts.length).toNat

/-- `c.points[n].text = ""` for one index `n` (Python semantics for the
index); `none` models `IndexError`. -/
def pySetBlank (pts : List DataPoint) (n : ℤ) : Option (List DataPoint) :=
  if normIdx pts.length n < 0 then none
  else
    match pts[(normIdx pts.length n).toNat]? with
    | none => none
    | some p => some (pts.set (normIdx pts.length n).toNat { p with text := "" })

instance {ε α : Type} [DecidableEq ε] [DecidableEq α] : DecidableEq (Except ε α) := fun a b =>
  match a, b with
  | .error e, .error f =>
    if h : e = f then .isTrue (h ▸ rfl)
    else .isFalse (fun hh => Except.noConfusion hh fun he => h he)
  | .ok x, .ok y =>
    if h : x = y then .isTrue (h ▸ rfl)
    else .isFalse (fun hh => Except.noConfusion hh fun hxy => h hxy)
  | .error _, .ok _ => .isFalse (fun hh => Except.noConfusion hh)
  | .ok _, .error _ => .isFalse (fun hh => Except.noConfusion hh)

/-- Error strings standing for the Python exception classes. -/
def errIndex : String := "IndexError"

def errType : String := "TypeError"

def errValue : String := "ValueError"

/-- The loop `for n in xrange(a, a + count): c.points[n].text = ""`. -/
def blankFrom : List DataPoint → ℤ → ℕ → Except String (List DataPoint)
  | pts, _, 0 => .ok pts
  | pts, n, Nat.succ fuel =>
    match pySetBlank pts n with
    | none => .error errIndex
    | some pts' => blankFrom pts' (n + 1) fuel

/-- `for n in xrange(m-k, m+k): c.points[n].text = ""` (source lines
190-191). -/
def blankRange (pts : List DataPoint) (a b : ℤ) : Except String (List DataPoint) :=
  blankFrom pts a (b - a).toNat

/-! ## Contour stitcher (source lines 70-93) -/

/-- Scan the result list for the incoming contour `co`, splicing it into
every chain whose head or tail matches (the `continue` statements in the
source do not leave the scan).  The two reversal cases evaluate
`reversed(co.points) + cn.points` resp. `cn.points + reversed(co.points)`,
which raises `TypeError` in Python (an iterator cannot be concatenated with
a list); empty point lists would make `co.points[0]` raise `IndexError`.
Returns the updated result list and the `merged` flag. -/
def stitchScan (co : Contour) : List Contour → Except String (List Contour × Bool)
  | [] => .ok ([], false)
  | cn :: rest =>
    match co.points.head?, co.points.getLast?, cn.points.head?, cn.points.getLast? with
    | some coH, some coT, some cnH, some cnT =>
      if dpEq coH cnH then .error errType
      else if dpEq coH cnT then
        match stitchScan co rest with
        | .error e => .error e
        | .ok (rest', _) => .ok ({ cn with points := cn.points ++ co.points } :: rest', true)
      else if dpEq coT cnH then
        match stitchScan co rest with
        | .error e => .error e
        | .ok (rest', _) => .ok ({ cn with points := co.points ++ cn.points } :: rest', true)
      else if dpEq coT cnT then .error errType
      else
        match stitchScan co rest with
        | .error e => .error e
        | .ok (rest', m) => .ok (cn :: rest', m)
    | _, _, _, _ => .error errIndex

/-- The outer loop: thread the result list over the incoming contours,
appending `co` as a new chain when no splice happened. -/
def stitchGo (acc : List Contour) : List Contour → Except String (List Contour)
  | [] => .ok acc
  | co :: rest =>
    match stitchScan co acc with
    | .error e => .error e
    | .ok (acc', merged) => stitchGo (if merged then acc' else acc' ++ [co]) rest

/-- The whole stitching pass (source lines 71-93). -/
def stitchAll (cs : List Contour) : Except String (List Contour) :=
  stitchGo [] cs

/-! ## Label placement engine (source lines 96-192) -/

/-- The sequential state of the placement loop: the `low` bias flag and the
accumulated label points. -/
structure EngState where
  low : Bool
  labels : List DataPoint
deriving DecidableEq

/-- The default anchor index (source lines 103-106):
`int(float(len) * 2./3.)` when `low`, else `int(len / 3)` (Python 2 integer
division). -/
def defaultM (low : Bool) (len : ℕ) : ℤ :=
  if low then pyInt (pyDiv (pyMul (fl len) 2) 3)
  else (len / 3 : ℕ)

/-- The anchor index after the per-(organtech, z, N, M) override block
(source lines 103-183), starting from the default.  Decimal literals are
their binary64 values; `a/b` literal chains follow Python's left-to-right
evaluation (`float(len) * x/y` is `(float(len) * x) / y`).  The two
`float(c.points[0].z)` conversions may raise `ValueError`. -/
def chosenM (ot : String) (N M : ℕ) (low : Bool) (pts : List DataPoint) : Except String ℤ :=
  let len : ℕ := pts.length
  let lenF : ℚ := fl len
  let d : ℤ := defaultM low len
  match pts.head? with
  | none => .error errIndex
  | some p0 =>
    if ot = "cion_bladder" then
      let m1 : ℤ :=
        if p0.z = "1.75" then
          if N = 4 ∧ M = 1 then pyInt (pyDiv (pyMul lenF 2) 5)
          else if N = 1 ∧ M = 2 then pyInt (pyMul lenF (fl (14/100)))
          else if N = 2 ∧ M = 2 then pyInt (pyMul lenF (fl (115/1000)))
          else if N = 3 ∧ M = 2 then pyInt (pyMul lenF (fl (19/100)))
          else if N = 4 ∧ M = 2 then pyInt (pyMul lenF (fl (19/100)))
          else if N = 1 ∧ M = 3 then pyInt (pyMul lenF (fl (21/100)))
          else if N = 2 ∧ M = 3 then pyInt (pyMul lenF (fl (17/100)))
          else if (N = 3 ∨ N = 4) ∧ M = 3 then pyInt (pyMul lenF (fl (31/100)))
          else if N = 1 ∧ M = 4 then pyInt (pyMul lenF (fl (2/10)))
          else if N = 2 ∧ M = 4 then pyInt (pyMul lenF (fl (185/1000)))
          else if N = 3 ∧ M = 4 then pyInt (pyMul lenF (fl (22/100)))
          else if N = 4 ∧ M = 4 then pyInt (pyMul lenF (fl (43/100)))
          else pyInt (pyDiv (pyMul lenF (3/2)) 8)
        else d
      let m2 : ℤ :=
        if p0.z = "1.5" then
          if M = 3 then pyInt (pyDiv (pyMul lenF 1) 2) else m1
        else m1
      let m3 : ℤ :=
        if p0.z = "2" then
          if M = 4 then
            if N = 1 then pyInt (pyMul lenF (fl (165/1000)))
            else if N = 4 then pyInt (pyMul lenF (fl (14/100)))
            else pyInt (pyMul lenF (fl (15/100)))
          else
            if N = 1 ∨ N = 2 then pyInt (pyDiv (pyMul lenF (7/4)) 8)
            else if N = 3 then pyInt (pyDiv (pyMul lenF (fl (33/20))) 8)
            else pyInt (pyDiv (pyMul lenF (3/2)) 8)
        else m2
      .ok m3
    else if ot = "cion_rectum" then
      match parseQ p0.z with
      | none => .error errValue
      | some zq => .ok (if 1 < fl zq then pyInt (pyMul lenF 0) else d)
    else if ot = "proton_bladder" then
      .ok (if p0.z = "2.5" then
        if M = 1 ∧ N = 2 then pyInt (pyMul lenF (fl (8/10)))
        else if M = 1 ∧ N = 3 then pyInt (pyMul lenF (fl (63/100)))
        else if M = 1 ∧ N = 4 then pyInt (pyMul lenF (fl (57/100)))
        else if M = 2 ∧ N = 3 then pyInt (pyMul lenF (fl (6/10)))
        else if M = 2 ∧ N = 4 then pyInt (pyMul lenF (fl (43/100)))
        else if M = 3 ∧ N = 2 then pyInt (pyMul lenF 0)
        else if M = 3 ∧ N = 3 then pyInt (pyMul lenF (fl (43/100)))
        else if M = 3 ∧ N = 4 then pyInt (pyMul lenF (fl (32/100)))
        else if M = 4 ∧ (N = 3 ∨ N = 4) then pyInt (pyMul lenF (fl (32/100)))
        else d
      else d)
    else if ot = "proton_rectum" then
      match parseQ p0.z with
      | none => .error errValue
      | some zq => .ok (if 3/2 < fl zq then pyInt (pyMul lenF 0) else d)
    else .ok d

/-- The exclusion-rectangle test (source line 186):
`x < 0.03 or 0.775 < x or y < 0.013 or 0.049 < y`, on binary64 values. -/
def inExcl (qx qy : ℚ) : Bool :=
  decide (fl qx < fl (3/100)) || decide (fl (775/1000) < fl qx) ||
  decide (fl qy < fl (13/1000)) || decide (fl (49/1000) < fl qy)

/-- The eligibility test of source line 101: a chain is skipped when
`len(c.points) < 2*k+1`. -/
def lengthEligible (k : ℕ) (c : Contour) : Prop :=
  ¬ c.points.length < 2 * k + 1

/-- One iteration of the placement loop (source lines 100-192) on one
chain.  `k` is the half-window size: the spec treats it as caller-supplied
(typical values 14 and 16); the source file under `src/` sets `k = 16`.
Skipped and rejected chains leave state and chain unchanged; acceptance
flips `low`, deep-copies the anchor into the label list *before* blanking,
blanks `[m-k, m+k)` and trims the point list. -/
def placeStep (ot : String) (N M k : ℕ) (st : EngState) (c : Contour) :
    Except String (EngState × Contour) :=
  if c.points.length < 2 * k + 1 then .ok (st, c)
  else
    match chosenM ot N M st.low c.points with
    | .error e => .error e
    | .ok m =>
      match pyGetI c.points m with
      | none => .error errIndex
      | some p =>
        match parseQ p.x, parseQ p.y with
        | some qx, some qy =>
          if inExcl qx qy then .ok (st, c)
          else
            match blankRange c.points (m - k) (m + k) with
            | .error e => .error e
            | .ok pts =>
              match pyGetI pts m with
              | none => .error errIndex
              | some anchor =>
                .ok ({ low := !st.low, labels := st.labels ++ [p] },
                     { c with points :=
                         pySliceTo pts (m - k) ++ [anchor] ++ pySliceFrom pts (m + k) })
        | _, _ => .error errValue

/-- The placement loop over all chains in order (source lines 99-192). -/
def placeAll (ot : String) (N M k : ℕ) (st : EngState) :
    List Contour → Except String (EngState × List Contour)
  | [] => .ok (st, [])
  | c :: cs =>
    match placeStep ot N M k st c with
    | .error e => .error e
    | .ok (st', c') =>
      match placeAll ot N M k st' cs with
      | .error e => .error e
      | .ok (stF, cs') => .ok (stF, c' :: cs')

/-- The trimmed-contour writer (source lines 196-200): one blank line, then
the text of every remaining point, per chain. -/
def trimmedLines (cs : List Contour) : List String :=
  cs.foldr (fun c acc => "" :: (c.points.map (fun p => p.text) ++ acc)) []

/-- The data lines of an input file: the lines classified as data by the
parser loop (the header pattern is tested first, as in the source). -/
def dataLines (lines : List String) : List String :=
  lines.filter (fun l => (headMatch l).isNone && (dataMatch l).isSome)

/-- The whole pipeline on the in-core component: parse, stitch, place;
returns the trimmed-output lines and the label points.  `ot`, `N`, `M` are
the externally supplied organ/technique tag and panel coordinates (derived
from the file name by the excluded CLI layer). -/
def pipeline (ot : String) (N M k : ℕ) (lines : List String) :
    Except String (List String × List DataPoint) :=
  match stitchAll (parseContours lines) with
  | .error e => .error e
  | .ok chains =>
    match placeAll ot N M k ⟨false, []⟩ chains with
    | .error e => .error e
    | .ok (st, chains') => .ok (trimmedLines chains', st.labels)

/-! ## Facts about the rounding model -/

theorem rndEven_intCast (n : ℤ) : rndEven (n : ℚ) = n := by
  simp only [rndEven, Int.floor_intCast, sub_self]
  norm_num

theorem abs_rndEven_sub_le (q : ℚ) : |(rndEven q : ℚ) - q| ≤ 1 / 2 := by
  unfold rndEven
  have h0 : (0 : ℚ) ≤ q - ⌊q⌋ := sub_nonneg.mpr (Int.floor_le q)
  have h1 : q - ⌊q⌋ < 1 := by
    have := Int.lt_floor_add_one q; linarith
  split_ifs with hlt hgt hev
  · rw [abs_sub_comm, abs_of_nonneg h0]; linarith
  · push_cast
    rw [abs_of_nonneg (by linarith : (0 : ℚ) ≤ (⌊q⌋ : ℚ) + 1 - q)]
    linarith
  · have heq : q - ⌊q⌋ = 1 / 2 := le_antisymm (not_lt.mp hgt) (not_lt.mp hlt)
    rw [abs_sub_comm, abs_of_nonneg h0]; linarith
  · have heq : q - ⌊q⌋ = 1 / 2 := le_antisymm (not_lt.mp hgt) (not_lt.mp hlt)
    push_cast
    rw [abs_of_nonneg (by linarith : (0 : ℚ) ≤ (⌊q⌋ : ℚ) + 1 - q)]
    linarith

theorem rndEven_of_intCast_eq {q : ℚ} {z : ℤ} (h : q = (z : ℚ)) : rndEven q = z := by
  rw [h, rndEven_intCast]

/-- A value whose scaled significand is an integer is exactly
representable: rounding leaves it unchanged. -/
theorem floatRound_of_int_scaled {x : ℚ} (hx : x ≠ 0) (z : ℤ)
    (h : x / 2 ^ (Int.log 2 |x| - 52) = (z : ℚ)) : floatRound x = x := by
  unfold floatRound
  rw [if_neg hx, ratLog2_eq, rndEven_of_intCast_eq h, ← h,
    div_mul_cancel₀ _ (zpow_ne_zero _ (two_ne_zero : (2 : ℚ) ≠ 0))]

theorem floatRound_natCast {n : ℕ} (h1 : 1 ≤ n) (h2 : n ≤ 2 ^ 52) :
    floatRound (n : ℚ) = n := by
  have hn0 : (n : ℚ) ≠ 0 := Nat.cast_ne_zero.mpr (by omega)
  have habs : |(n : ℚ)| = (n : ℚ) := abs_of_nonneg (by positivity)
  have hele : Int.log 2 |(n : ℚ)| ≤ 52 := by
    rw [habs, Int.log_natCast]
    have hlt : Nat.log 2 n < 53 := Nat.log_lt_of_lt_pow (by omega)
      (by calc n ≤ 2 ^ 52 := h2
            _ < 2 ^ 53 := by norm_num)
    omega
  apply floatRound_of_int_scaled hn0 ((n : ℤ) * 2 ^ (52 - Int.log 2 |(n : ℚ)|).toNat)
  rw [div_eq_iff (zpow_ne_zero _ (two_ne_zero : (2 : ℚ) ≠ 0))]
  push_cast
  rw [← zpow_natCast (2 : ℚ) (52 - Int.log 2 |(n : ℚ)|).toNat,
    Int.toNat_of_nonneg (by omega : (0 : ℤ) ≤ 52 - Int.log 2 |(n : ℚ)|)]
  rw [mul_assoc, ← zpow_add₀ (two_ne_zero : (2 : ℚ) ≠ 0),
    show 52 - Int.log 2 |(n : ℚ)| + (Int.log 2 |(n : ℚ)| - 52) = 0 by ring,
    zpow_zero, mul_one]

/-- Rounding moves a value by at most half an ulp:
`2^(e-53)` where `e` is the binade exponent. -/
theorem abs_floatRound_sub_le {x : ℚ} (hx : x ≠ 0) :
    |floatRound x - x| ≤ 2 ^ (Int.log 2 |x| - 53) := by
  unfold floatRound
  rw [if_neg hx, ratLog2_eq]
  set e : ℤ := Int.log 2 |x|
  set g : ℚ := 2 ^ (e - 52) with hgdef
  have hg : (0 : ℚ) < g := by
    rw [hgdef]; positivity
  have hxg : x / g * g = x := div_mul_cancel₀ x (ne_of_gt hg)
  have key : (rndEven (x / g) : ℚ) * g - x = ((rndEven (x / g) : ℚ) - x / g) * g := by
    rw [sub_mul, hxg]
  rw [key, abs_mul, abs_of_pos hg]
  have hhalf : (2 : ℚ) ^ (e - 53) = 1 / 2 * g := by
    rw [hgdef, show e - 53 = -1 + (e - 52) by ring,
      zpow_add₀ (two_ne_zero : (2 : ℚ) ≠ 0)]
    norm_num
  rw [hhalf]
  exact mul_le_mul_of_nonneg_right (abs_rndEven_sub_le _) (le_of_lt hg)

theorem pyInt_eq_floor {q : ℚ} (h : 0 ≤ q) : pyInt q = ⌊q⌋ :=
  if_neg (not_lt.mpr h)

/-- `int(len / 3)` with `low` false: Python 2 integer division. -/
theorem defaultM_false (len : ℕ) : defaultM false len = ((len / 3 : ℕ) : ℤ) := by
  simp [defaultM]

/-- `int(float(len) * 2./3.)` computes `floor(2*len/3)` exactly for every
list length up to `2^51`: the one rounded operation is the division by 3,
and its error (at most `2^(e-53) ≤ 1/4`) cannot move the value across an
integer because the exact value sits at distance `1/3` from the nearest
integers (or is itself exactly representable). -/
theorem defaultM_true {len : ℕ} (h1 : 1 ≤ len) (h2 : len ≤ 2 ^ 51) :
    defaultM true len = ((2 * len / 3 : ℕ) : ℤ) := by
  unfold defaultM pyDiv pyMul fl
  rw [if_pos rfl]
  rw [floatRound_natCast h1 (by omega)]
  have hcast : (len : ℚ) * 2 = ((2 * len : ℕ) : ℚ) := by push_cast; ring
  rw [hcast, floatRound_natCast (by omega) (by
    calc 2 * len ≤ 2 * 2 ^ 51 := by omega
      _ = 2 ^ 52 := by norm_num)]
  set T : ℕ := 2 * len with hT
  set q : ℕ := T / 3 with hq
  set r : ℕ := T % 3 with hr
  have hTqr : T = 3 * q + r := (Nat.div_add_mod T 3).symm
  have hrlt : r < 3 := Nat.mod_lt _ (by norm_num)
  rcases Nat.eq_zero_or_pos r with hr0 | hrpos
  · -- exact integer: `2*len/3` is a whole number, exactly representable
    have hTq : T = 3 * q := by omega
    have hxq : (T : ℚ) / 3 = (q : ℚ) := by
      rw [hTq]; push_cast; ring
    rw [hxq, floatRound_natCast (by omega) (by omega)]
    rw [pyInt_eq_floor (by positivity), Int.floor_natCast]
  · -- fractional part is 1/3 or 2/3
    have hxval : (T : ℚ) / 3 = (q : ℚ) + (r : ℚ) / 3 := by
      rw [hTqr]; push_cast; ring
    have hT2 : 2 ≤ T := by omega
    have hx0 : (0 : ℚ) < (T : ℚ) / 3 := by
      have : (0 : ℚ) < (T : ℚ) := by exact_mod_cast (by omega : 0 < T)
      positivity
    have hxne : (T : ℚ) / 3 ≠ 0 := ne_of_gt hx0
    have hxlt : (T : ℚ) / 3 < (2 : ℚ) ^ (52 : ℤ) := by
      rw [div_lt_iff₀ (by norm_num : (0 : ℚ) < 3)]
      have hTle : (T : ℚ) ≤ (2 : ℚ) ^ (52 : ℕ) := by
        exact_mod_cast (by omega : T ≤ 2 ^ 52)
      have h2 : ((2 : ℚ) ^ (52 : ℤ) : ℚ) = (2 : ℚ) ^ (52 : ℕ) := by
        norm_num
      rw [h2]
      nlinarith [pow_pos (by norm_num : (0 : ℚ) < 2) 52]
    have habs : |(T : ℚ) / 3| = (T : ℚ) / 3 := abs_of_pos hx0
    have hlog : Int.log 2 |(T : ℚ) / 3| < 52 := by
      rw [habs]
      exact (Int.lt_zpow_iff_log_lt (by norm_num) hx0).mp hxlt
    have herr := abs_floatRound_sub_le hxne
    have herr2 : |floatRound ((T : ℚ) / 3) - (T : ℚ) / 3| ≤ 1 / 4 := by
      refine le_trans herr (le_trans (zpow_le_zpow_right₀ (by norm_num : (1:ℚ) ≤ 2)
        (by omega : Int.log 2 |(T : ℚ) / 3| - 53 ≤ -2)) ?_)
      norm_num
    obtain ⟨herrL, herrR⟩ := abs_le.mp herr2
    have hr1 : (1 : ℚ) ≤ (r : ℚ) := by exact_mod_cast hrpos
    have hr2 : (r : ℚ) ≤ 2 := by exact_mod_cast (by omega : r ≤ 2)
    have hlb : (q : ℚ) ≤ floatRound ((T : ℚ) / 3) := by linarith
    have hub : floatRound ((T : ℚ) / 3) < (q : ℚ) + 1 := by linarith
    have hfR0 : (0 : ℚ) ≤ floatRound ((T : ℚ) / 3) :=
      le_trans (by positivity) hlb
    rw [pyInt_eq_floor hfR0]
    rw [Int.floor_eq_iff]
    constructor
    · exact_mod_cast hlb
    · push_cast; exact hub

/-! ## Facts about Python indexing and the blanking loop -/

theorem pyGetI_natCast (pts : List DataPoint) (n : ℕ) :
    pyGetI pts (n : ℤ) = pts[n]? := by
  unfold pyGetI normIdx
  rw [if_neg (by omega : ¬ (n : ℤ) < 0)]
  rw [if_neg (by omega : ¬ (n : ℤ) < 0)]
  simp

theorem pyGetI_some {pts : List DataPoint} {m : ℤ} (h0 : 0 ≤ m)
    (h1 : m < pts.length) : ∃ p, pyGetI pts m = some p := by
  unfold pyGetI normIdx
  rw [if_neg (not_lt.mpr h0), if_neg (not_lt.mpr h0)]
  exact ⟨_, List.getElem?_eq_getElem (by omega)⟩

theorem pySetBlank_length {pts pts' : List DataPoint} {n : ℤ}
    (h : pySetBlank pts n = some pts') : pts'.length = pts.length := by
  unfold pySetBlank at h
  split at h
  · exact absurd h (by simp)
  · split at h
    · exact absurd h (by simp)
    · injection h with h
      rw [← h]
      simp

theorem pySetBlank_eq {pts pts' : List DataPoint} {n : ℤ}
    (h : pySetBlank pts n = some pts') :
    ∃ p, pts[(normIdx pts.length n).toNat]? = some p ∧
      pts' = pts.set (normIdx pts.length n).toNat { p with text := "" } := by
  unfold pySetBlank at h
  split at h
  · exact absurd h (by simp)
  · split at h
    · exact absurd h (by simp)
    · next p hp =>
      injection h with h
      exact ⟨p, hp, h.symm⟩

theorem pySetBlank_some {pts : List DataPoint} {n : ℤ}
    (h0 : 0 ≤ normIdx pts.length n) (h1 : normIdx pts.length n < pts.length) :
    ∃ pts', pySetBlank pts n = some pts' := by
  unfold pySetBlank
  rw [if_neg (not_lt.mpr h0)]
  have hlt : (normIdx pts.length n).toNat < pts.length := by omega
  rw [List.getElem?_eq_getElem hlt]
  exact ⟨_, rfl⟩

theorem blankFrom_length : ∀ (fuel : ℕ) (pts pts' : List DataPoint) (n : ℤ),
    blankFrom pts n fuel = .ok pts' → pts'.length = pts.length := by
  intro fuel
  induction fuel with
  | zero =>
    intro pts pts' n h
    injection h with h
    rw [h]
  | succ f ih =>
    intro pts pts' n h
    unfold blankFrom at h
    split at h
    · exact absurd h (by simp)
    · next pts1 hsb =>
      rw [ih pts1 pts' (n + 1) h, pySetBlank_length hsb]

theorem blankFrom_ok : ∀ (fuel : ℕ) (pts : List DataPoint) (n : ℤ),
    (∀ j : ℕ, j < fuel →
      0 ≤ normIdx pts.length (n + j) ∧ normIdx pts.length (n + j) < pts.length) →
    ∃ pts', blankFrom pts n fuel = .ok pts' := by
  intro fuel
  induction fuel with
  | zero => exact fun pts n _ => ⟨pts, rfl⟩
  | succ f ih =>
    intro pts n h
    have h0 := h 0 (by omega)
    rw [Nat.cast_zero, add_zero] at h0
    obtain ⟨pts1, hp1⟩ := pySetBlank_some h0.1 h0.2
    have hlen : pts1.length = pts.length := pySetBlank_length hp1
    obtain ⟨pts', hp'⟩ := ih pts1 (n + 1) (by
      intro j hj
      have hjj := h (j + 1) (by omega)
      rw [hlen]
      have harith : n + 1 + (j : ℤ) = n + ((j + 1 : ℕ) : ℤ) := by push_cast; ring
      rw [harith]
      exact hjj)
    refine ⟨pts', ?_⟩
    unfold blankFrom
    rw [hp1]
    exact hp'

theorem blankFrom_preserves_blank : ∀ (fuel : ℕ) (pts pts' : List DataPoint)
    (n : ℤ) (idx : ℕ),
    blankFrom pts n fuel = .ok pts' →
    (∃ p, pts[idx]? = some p ∧ p.text = "") →
    ∃ p', pts'[idx]? = some p' ∧ p'.text = "" := by
  intro fuel
  induction fuel with
  | zero =>
    intro pts pts' n idx h hp
    injection h with h
    rw [← h]
    exact hp
  | succ f ih =>
    intro pts pts' n idx h hp
    unfold blankFrom at h
    split at h
    · exact absurd h (by simp)
    · next pts1 hsb =>
      obtain ⟨p, hget, hpe⟩ := hp
      obtain ⟨q, hq, hset⟩ := pySetBlank_eq hsb
      refine ih pts1 pts' (n + 1) idx h ?_
      by_cases hidx : (normIdx pts.length n).toNat = idx
      · subst hidx
        have hlt : (normIdx pts.length n).toNat < pts.length :=
          (List.getElem?_eq_some_iff.mp hq).1
        exact ⟨_, by rw [hset]; exact List.getElem?_set_self hlt, rfl⟩
      · exact ⟨p, by rw [hset, List.getElem?_set_ne hidx]; exact hget, hpe⟩

theorem blankFrom_text : ∀ (fuel : ℕ) (pts pts' : List DataPoint) (n : ℤ) (j : ℕ),
    blankFrom pts n fuel = .ok pts' → j < fuel →
    ∃ p', pts'[(normIdx pts.length (n + j)).toNat]? = some p' ∧ p'.text = "" := by
  intro fuel
  induction fuel with
  | zero => omega
  | succ f ih =>
    intro pts pts' n j h hj
    unfold blankFrom at h
    split at h
    · exact absurd h (by simp)
    · next pts1 hsb =>
      have hlen : pts1.length = pts.length := pySetBlank_length hsb
      cases j with
      | zero =>
        rw [Nat.cast_zero, add_zero]
        obtain ⟨q, hq, hset⟩ := pySetBlank_eq hsb
        have hlt : (normIdx pts.length n).toNat < pts.length :=
          (List.getElem?_eq_some_iff.mp hq).1
        refine blankFrom_preserves_blank f pts1 pts' (n + 1) _ h ?_
        exact ⟨_, by rw [hset]; exact List.getElem?_set_self hlt, rfl⟩
      | succ j' =>
        have harith : n + ((j' + 1 : ℕ) : ℤ) = n + 1 + (j' : ℤ) := by push_cast; ring
        rw [harith, ← hlen]
        exact ih pts1 pts' (n + 1) j' h (by omega)

/-! ## Facts about the stitcher -/

/-- The head-or-tail adjacency test between an incoming contour `co` and an
existing chain `cn`, in the order the source evaluates the four cases;
`true` also when a point list is empty (where the source would raise). -/
def touches (co cn : Contour) : Bool :=
  match co.points.head?, co.points.getLast?, cn.points.head?, cn.points.getLast? with
  | some coH, some coT, some cnH, some cnT =>
    dpEq coH cnH || dpEq coH cnT || dpEq coT cnH || dpEq coT cnT
  | _, _, _, _ => true

/-- No contour in the list shares an endpoint with any earlier one. -/
def noTouchAll : List Contour → Bool
  | [] => true
  | c :: rest => rest.all (fun co => !(touches co c)) && noTouchAll rest

theorem stitchScan_id (co : Contour) : ∀ acc : List Contour,
    (∀ cn ∈ acc, touches co cn = false) → stitchScan co acc = .ok (acc, false) := by
  intro acc
  induction acc with
  | nil => intro _; rfl
  | cons cn rest ih =>
    intro h
    have hcn : touches co cn = false := h cn (by simp)
    unfold touches at hcn
    unfold stitchScan
    cases hcoH : co.points.head? with
    | none => simp [hcoH] at hcn
    | some coH =>
      cases hcoT : co.points.getLast? with
      | none => simp [hcoH, hcoT] at hcn
      | some coT =>
        cases hcnH : cn.points.head? with
        | none => simp [hcoH, hcoT, hcnH] at hcn
        | some cnH =>
          cases hcnT : cn.points.getLast? with
          | none => simp [hcoH, hcoT, hcnH, hcnT] at hcn
          | some cnT =>
            rw [hcoH, hcoT, hcnH, hcnT] at hcn
            simp only [Bool.or_eq_false_iff] at hcn
            obtain ⟨⟨⟨h1, h2⟩, h3⟩, h4⟩ := hcn
            simp only [h1, h2, h3, h4, Bool.false_eq_true, if_false]
            rw [ih (fun x hx => h x (by simp [hx]))]

theorem stitchGo_append : ∀ (cs acc : List Contour),
    noTouchAll cs = true → (∀ co ∈ cs, ∀ cn ∈ acc, touches co cn = false) →
    stitchGo acc cs = .ok (acc ++ cs) := by
  intro cs
  induction cs with
  | nil => intro acc _ _; simp [stitchGo]
  | cons co rest ih =>
    intro acc hall hacc
    unfold noTouchAll at hall
    rw [Bool.and_eq_true, List.all_eq_true] at hall
    unfold stitchGo
    rw [stitchScan_id co acc (hacc co (by simp))]
    have hrec : stitchGo (acc ++ [co]) rest = .ok ((acc ++ [co]) ++ rest) := by
      refine ih (acc ++ [co]) hall.2 ?_
      intro co' hco' cn hcn
      rcases List.mem_append.mp hcn with hcn' | hcn'
      · exact hacc co' (by simp [hco']) cn hcn'
      · have : cn = co := by simpa using hcn'
        subst this
        have := hall.1 co' hco'
        simpa using this
    simpa [List.append_assoc] using hrec

/-- When no two contours share an endpoint, the stitcher returns its input
unchanged. -/
theorem stitchAll_id {cs : List Contour} (h : noTouchAll cs = true) :
    stitchAll cs = .ok cs := by
  have := stitchGo_append cs [] h (by simp)
  simpa [stitchAll] using this

/-! ## Facts about the placement loop -/

/-- A chain shorter than `2k+1` points is skipped entirely. -/
theorem placeStep_skip {ot : String} {N M k : ℕ} {st : EngState} {c : Contour}
    (h : c.points.length < 2 * k + 1) : placeStep ot N M k st c = .ok (st, c) := by
  unfold placeStep
  rw [if_pos h]

/-- When every chain is too short, the placement loop changes nothing. -/
theorem placeAll_skip {ot : String} {N M k : ℕ} {st : EngState} :
    ∀ cs : List Contour, (∀ c ∈ cs, c.points.length < 2 * k + 1) →
    placeAll ot N M k st cs = .ok (st, cs) := by
  intro cs
  induction cs with
  | nil => intro _; rfl
  | cons c rest ih =>
    intro h
    unfold placeAll
    rw [placeStep_skip (h c (by simp))]
    show (match placeAll ot N M k st rest with
      | Except.error e => (Except.error e : Except String (EngState × List Contour))
      | Except.ok (stF, cs') => Except.ok (stF, c :: cs')) = Except.ok (st, c :: rest)
    rw [ih (fun x hx => h x (by simp [hx]))]

/-! ## Facts about the parser: point texts are exactly the data lines -/

/-- The source texts of a contour's points. -/
def ctexts (c : Contour) : List String := c.points.map (fun p => p.text)

/-- All point texts held in a parse state, in order. -/
def stTexts (st : ParseState) : List String :=
  (st.acc.map ctexts).flatten ++ st.current.elim [] ctexts

theorem dataStep_texts (st : ParseState) (l x y z : String) :
    stTexts (dataStep st l x y z) = stTexts st ++ [l] := by
  unfold dataStep
  cases hc : st.current with
  | none => simp [stTexts, hc, ctexts]
  | some c =>
    dsimp only
    by_cases hlab : c.label ≠ z
    · rw [if_pos hlab]; simp [stTexts, hc, ctexts]
    · rw [if_neg hlab]; simp [stTexts, hc, ctexts]

theorem parseLine_texts (st : ParseState) (l : String) :
    stTexts (parseLine st l) =
      stTexts st ++ (if (headMatch l).isNone && (dataMatch l).isSome then [l] else []) := by
  unfold parseLine
  split
  · next label hh =>
    rw [hh]
    cases hc : st.current with
    | none => simp [stTexts, hc, ctexts]
    | some c => simp [stTexts, hc, ctexts]
  · next hh =>
    rw [hh]
    split
    · next x y z hd =>
      rw [hd, dataStep_texts]
      simp
    · next hd =>
      rw [hd]
      split
      · next hblank =>
        cases hc : st.current with
        | none => simp [stTexts, hc]
        | some c => simp [stTexts, hc]
      · simp

theorem foldl_parseLine_texts : ∀ (lines : List String) (st : ParseState),
    stTexts (lines.foldl parseLine st) = stTexts st ++ dataLines lines := by
  intro lines
  induction lines with
  | nil => intro st; simp [dataLines]
  | cons l rest ih =>
    intro st
    rw [List.foldl_cons, ih, parseLine_texts]
    unfold dataLines
    rw [List.filter_cons]
    split
    · simp
    · simp

theorem join_filter_pos_points (cs : List Contour) :
    ((cs.filter (fun c => 0 < c.points.length)).map ctexts).flatten =
      (cs.map ctexts).flatten := by
  induction cs with
  | nil => rfl
  | cons c rest ih =>
    rw [List.filter_cons]
    split
    · simp [ih]
    · next hpos =>
      have hnil : c.points = [] := by simpa using hpos
      simp [ctexts, hnil, ih]

/-- The parsed contours carry exactly the data lines of the input, in
order. -/
theorem parseContours_texts (lines : List String) :
    ((parseContours lines).map ctexts).flatten = dataLines lines := by
  unfold parseContours
  rw [join_filter_pos_points]
  have hfold := foldl_parseLine_texts lines ⟨none, []⟩
  cases hc : (lines.foldl parseLine ⟨none, []⟩).current with
  | none =>
    simp only [stTexts, hc] at hfold
    simpa [stTexts] using hfold
  | some c =>
    simp only [stTexts, hc] at hfold
    simpa [stTexts, ctexts] using hfold

theorem head?_some_of_pos {l : List DataPoint} (h : 0 < l.length) :
    ∃ a, l.head? = some a := by
  cases l with
  | nil => simp at h
  | cons a t => exact ⟨a, rfl⟩

/-- Outside the four overridden organ/technique tags, the anchor index is
the default one. -/
theorem chosenM_default {ot : String} {N M : ℕ} {low : Bool}
    {pts : List DataPoint} {p0 : DataPoint} (hp0 : pts.head? = some p0)
    (h1 : ot ≠ "cion_bladder") (h2 : ot ≠ "cion_rectum")
    (h3 : ot ≠ "proton_bladder") (h4 : ot ≠ "proton_rectum") :
    chosenM ot N M low pts = .ok (defaultM low pts.length) := by
  unfold chosenM
  split
  · next heq => rw [hp0] at heq; cases heq
  · next p0' heq =>
    rw [if_neg h1, if_neg h2, if_neg h3, if_neg h4]

theorem placeStep_eq_reject {ot : String} {N M k : ℕ} {st : EngState}
    {c : Contour} {m : ℤ} {p : DataPoint} {qx qy : ℚ}
    (hel : ¬ c.points.length < 2 * k + 1)
    (hm : chosenM ot N M st.low c.points = .ok m)
    (hp : pyGetI c.points m = some p)
    (hx : parseQ p.x = some qx) (hy : parseQ p.y = some qy)
    (hexcl : inExcl qx qy = true) :
    placeStep ot N M k st c = .ok (st, c) := by
  simp only [placeStep, if_neg hel, hm, hp, hx, hy, hexcl, if_true]

theorem placeStep_eq_error_blank {ot : String} {N M k : ℕ} {st : EngState}
    {c : Contour} {m : ℤ} {p : DataPoint} {qx qy : ℚ} {e : String}
    (hel : ¬ c.points.length < 2 * k + 1)
    (hm : chosenM ot N M st.low c.points = .ok m)
    (hp : pyGetI c.points m = some p)
    (hx : parseQ p.x = some qx) (hy : parseQ p.y = some qy)
    (hexcl : inExcl qx qy = false)
    (hbl : blankRange c.points (m - k) (m + k) = .error e) :
    placeStep ot N M k st c = .error e := by
  simp only [placeStep, if_neg hel, hm, hp, hx, hy, hexcl, Bool.false_eq_true,
    if_false, hbl]

theorem placeStep_eq_error_anchor {ot : String} {N M k : ℕ} {st : EngState}
    {c : Contour} {m : ℤ} {p : DataPoint} {qx qy : ℚ} {pts : List DataPoint}
    (hel : ¬ c.points.length < 2 * k + 1)
    (hm : chosenM ot N M st.low c.points = .ok m)
    (hp : pyGetI c.points m = some p)
    (hx : parseQ p.x = some qx) (hy : parseQ p.y = some qy)
    (hexcl : inExcl qx qy = false)
    (hbl : blankRange c.points (m - k) (m + k) = .ok pts)
    (ha : pyGetI pts m = none) :
    placeStep ot N M k st c = .error errIndex := by
  simp only [placeStep, if_neg hel, hm, hp, hx, hy, hexcl, Bool.false_eq_true,
    if_false, hbl, ha]

/-- The accept path: flip `low`, record the pre-blanking anchor as the
label, blank the window, trim the points. -/
theorem placeStep_eq_accept {ot : String} {N M k : ℕ} {st : EngState}
    {c : Contour} {m : ℤ} {p : DataPoint} {qx qy : ℚ} {pts : List DataPoint}
    {anchor : DataPoint}
    (hel : ¬ c.points.length < 2 * k + 1)
    (hm : chosenM ot N M st.low c.points = .ok m)
    (hp : pyGetI c.points m = some p)
    (hx : parseQ p.x = some qx) (hy : parseQ p.y = some qy)
    (hexcl : inExcl qx qy = false)
    (hbl : blankRange c.points (m - k) (m + k) = .ok pts)
    (ha : pyGetI pts m = some anchor) :
    placeStep ot N M k st c =
      .ok ({ low := !st.low, labels := st.labels ++ [p] },
           { c with points := pySliceTo pts (m - k) ++ [anchor] ++ pySliceFrom pts (m + k) }) := by
  simp only [placeStep, if_neg hel, hm, hp, hx, hy, hexcl, Bool.false_eq_true,
    if_false, hbl, ha]

/-- Every successful step either leaves everything unchanged (skip or
reject) or follows the accept path. -/
theorem placeStep_ok_cases {ot : String} {N M k : ℕ} {st st' : EngState}
    {c c' : Contour} (h : placeStep ot N M k st c = .ok (st', c')) :
    (st' = st ∧ c' = c) ∨
    (¬ c.points.length < 2 * k + 1 ∧
      ∃ m p qx qy pts anchor,
        chosenM ot N M st.low c.points = .ok m ∧
        pyGetI c.points m = some p ∧
        parseQ p.x = some qx ∧ parseQ p.y = some qy ∧
        inExcl qx qy = false ∧
        blankRange c.points (m - k) (m + k) = .ok pts ∧
        pyGetI pts m = some anchor ∧
        st' = { low := !st.low, labels := st.labels ++ [p] } ∧
        c' = { c with points :=
                pySliceTo pts (m - k) ++ [anchor] ++ pySliceFrom pts (m + k) }) := by
  unfold placeStep at h
  split at h
  · left
    injection h with h
    injection h with h1 h2
    exact ⟨h1.symm, h2.symm⟩
  · next hel =>
    split at h
    · cases h
    · next m hm =>
      split at h
      · cases h
      · next p hp =>
        split at h
        · next qx qy hx hy =>
          split at h
          · next hexcl =>
            left
            injection h with h
            injection h with h1 h2
            exact ⟨h1.symm, h2.symm⟩
          · next hexcl =>
            split at h
            · cases h
            · next pts hbl =>
              split at h
              · cases h
              · next anchor ha =>
                injection h with h
                injection h with h1 h2
                right
                refine ⟨hel, m, p, qx, qy, pts, anchor, hm, hp, hx, hy, ?_, hbl, ha, h1.symm, h2.symm⟩
                exact Bool.not_eq_true _ ▸ (by simpa using hexcl)
        · cases h

/-! ## Facts about the trimmed-contour writer -/

theorem trimmedLines_cons (c : Contour) (cs : List Contour) :
    trimmedLines (c :: cs) = "" :: (ctexts c ++ trimmedLines cs) := rfl

theorem trimmedLines_filter (cs : List Contour)
    (h : ∀ c ∈ cs, ∀ p ∈ c.points, p.text ≠ "") :
    (trimmedLines cs).filter (fun l => l ≠ "") = (cs.map ctexts).flatten := by
  induction cs with
  | nil => rfl
  | cons c rest ih =>
    rw [trimmedLines_cons, List.filter_cons, List.filter_append]
    have hc : (ctexts c).filter (fun l => l ≠ "") = ctexts c := by
      rw [List.filter_eq_self]
      intro a ha
      simp only [ctexts, List.mem_map] at ha
      obtain ⟨p, hp, hpa⟩ := ha
      simpa [← hpa] using h c (by simp) p hp
    rw [hc, ih (fun x hx => h x (by simp [hx]))]
    simp

/-! ## Parsed point texts are never empty -/

def stNonempty (st : ParseState) : Prop :=
  (∀ c ∈ st.acc, ∀ p ∈ c.points, p.text ≠ "") ∧
  (∀ c, st.current = some c → ∀ p ∈ c.points, p.text ≠ "")

theorem dataStep_nonempty {st : ParseState} {l : String} (x y z : String)
    (hl : l ≠ "") (h : stNonempty st) : stNonempty (dataStep st l x y z) := by
  obtain ⟨hacc, hcur⟩ := h
  unfold dataStep
  cases hc : st.current with
  | none =>
    refine ⟨hacc, ?_⟩
    intro cc hcc p hp
    injection hcc with hcc
    rw [← hcc] at hp
    have hpl : p = ⟨l, x, y, z⟩ := by simpa using hp
    rw [hpl]
    exact hl
  | some c0 =>
    dsimp only
    by_cases hlab : c0.label ≠ z
    · rw [if_pos hlab]
      constructor
      · intro cc hcc p hp
        rcases List.mem_append.mp hcc with h' | h'
        · exact hacc cc h' p hp
        · have hcc0 : cc = c0 := by simpa using h'
          subst hcc0
          exact hcur cc hc p hp
      · intro cc hcc p hp
        injection hcc with hcc
        rw [← hcc] at hp
        have hpl : p = ⟨l, x, y, z⟩ := by simpa using hp
        rw [hpl]
        exact hl
    · rw [if_neg hlab]
      constructor
      · exact hacc
      · intro cc hcc p hp
        injection hcc with hcc
        rw [← hcc] at hp
        simp only [List.mem_append] at hp
        rcases hp with h' | h'
        · exact hcur c0 hc p h'
        · have hpl : p = ⟨l, x, y, z⟩ := by simpa using h'
          rw [hpl]
          exact hl

theorem parseLine_nonempty {st : ParseState} (l : String)
    (h : stNonempty st) : stNonempty (parseLine st l) := by
  obtain ⟨hacc, hcur⟩ := h
  unfold parseLine
  split
  · next label hh =>
    cases hc : st.current with
    | none =>
      exact ⟨hacc, by intro cc hcc p hp; injection hcc with hcc; rw [← hcc] at hp; simp at hp⟩
    | some c0 =>
      constructor
      · intro cc hcc p hp
        rcases List.mem_append.mp hcc with h' | h'
        · exact hacc cc h' p hp
        · have hcc0 : cc = c0 := by simpa using h'
          subst hcc0
          exact hcur cc hc p hp
      · intro cc hcc p hp
        injection hcc with hcc
        rw [← hcc] at hp
        simp at hp
  · next hh =>
    split
    · next x y z hd =>
      have hlne : l ≠ "" := by
        intro he
        rw [he] at hd
        cases hd
      exact dataStep_nonempty x y z hlne ⟨hacc, hcur⟩
    · next hd =>
      split
      · next hblank =>
        cases hc : st.current with
        | none =>
          exact ⟨hacc, by intro cc hcc; cases hcc⟩
        | some c0 =>
          refine ⟨?_, by intro cc hcc; cases hcc⟩
          intro cc hcc p hp
          rcases List.mem_append.mp hcc with h' | h'
          · exact hacc cc h' p hp
          · have hcc0 : cc = c0 := by simpa using h'
            subst hcc0
            exact hcur cc hc p hp
      · exact ⟨hacc, hcur⟩

theorem parseContours_nonempty (lines : List String) :
    ∀ c ∈ parseContours lines, ∀ p ∈ c.points, p.text ≠ "" := by
  have hfold : stNonempty (lines.foldl parseLine ⟨none, []⟩) := by
    have : ∀ (ls : List String) (st : ParseState), stNonempty st →
        stNonempty (ls.foldl parseLine st) := by
      intro ls
      induction ls with
      | nil => exact fun st h => h
      | cons l rest ih =>
        intro st h
        exact ih (parseLine st l) (parseLine_nonempty l h)
    exact this lines ⟨none, []⟩ ⟨(fun c hc => nomatch hc), (fun c hc => nomatch hc)⟩
  intro c hc p hp
  unfold parseContours at hc
  have hc' := List.mem_filter.mp hc
  obtain ⟨hacc, hcur⟩ := hfold
  cases hcm : (lines.foldl parseLine ⟨none, []⟩).current with
  | none =>
    rw [hcm] at hc'
    exact hacc c hc'.1 p hp
  | some c0 =>
    rw [hcm] at hc'
    rcases List.mem_append.mp hc'.1 with h' | h'
    · exact hacc c h' p hp
    · have hcc0 : c = c0 := by simpa using h'
      subst hcc0
      exact hcur c hcm p hp

/-! ## Concrete witness data -/

/-- A generic point with in-rectangle coordinates and distinct text. -/
def stdPts (n : ℕ) : List DataPoint :=
  (List.range n).map (fun i => ⟨"p" ++ toString i, "0.5", "0.02", "1.25"⟩)

/-- Points of a `z = 1.75` contour (hits the `cion_rectum` override). -/
def rectPts (n : ℕ) : List DataPoint :=
  (List.range n).map (fun i => ⟨"q" ++ toString i, "0.5", "0.02", "1.75"⟩)

/-- Points whose anchor sits exactly on the exclusion boundary
`x = 0.03`. -/
def bPts (n : ℕ) : List DataPoint :=
  (List.range n).map (fun i => ⟨"b" ++ toString i, "0.03", "0.02", "1.25"⟩)

/-! ## Claim theorems -/

/-- C7: with half-window size `k = 14` (a caller-supplied parameter of the
placement engine), a Chain of exactly 28 points is skipped entirely — no
label emitted, no points trimmed, state unchanged — while a Chain of
exactly 29 points passes the length-eligibility test. -/
theorem c7_threshold_edge (ot : String) (N M : ℕ) (st : EngState)
    (c28 c29 : Contour) (h28 : c28.points.length = 28)
    (h29 : c29.points.length = 29) :
    placeStep ot N M 14 st c28 = .ok (st, c28) ∧ lengthEligible 14 c29 := by
  constructor
  · exact placeStep_skip (by omega)
  · unfold lengthEligible
    omega

/-- C7 witness: concrete 28- and 29-point chains. -/
theorem c7_witness :
    placeStep ("x") 1 1 14 ⟨false, []⟩ ⟨"1.25", stdPts 28⟩ =
      .ok (⟨false, []⟩, ⟨"1.25", stdPts 28⟩) ∧
    lengthEligible 14 ⟨"1.25", stdPts 29⟩ :=
  c7_threshold_edge ("x") 1 1 ⟨false, []⟩ ⟨"1.25", stdPts 28⟩
    ⟨"1.25", stdPts 29⟩ (by decide) (by decide)

/-- C6: a length-eligible chain whose anchor coordinates parse is
rejected — skipped with state, chain and `low` flag unchanged, no label —
exactly when its anchor lies strictly outside the exclusion rectangle
(`x < 0.03`, `x > 0.775`, `y < 0.013` or `y > 0.049`, all on binary64
values, strict inequalities only); an anchor exactly on a boundary is
accepted. -/
theorem c6_exclusion_strict (ot : String) (N M k : ℕ) (st : EngState)
    (c : Contour) (m : ℤ) (p : DataPoint) (qx qy : ℚ)
    (hel : ¬ c.points.length < 2 * k + 1)
    (hm : chosenM ot N M st.low c.points = .ok m)
    (hp : pyGetI c.points m = some p)
    (hx : parseQ p.x = some qx) (hy : parseQ p.y = some qy) :
    placeStep ot N M k st c = .ok (st, c) ↔
      (fl qx < fl (3/100) ∨ fl (775/1000) < fl qx ∨
       fl qy < fl (13/1000) ∨ fl (49/1000) < fl qy) := by
  have hiff : inExcl qx qy = true ↔
      (fl qx < fl (3/100) ∨ fl (775/1000) < fl qx ∨
       fl qy < fl (13/1000) ∨ fl (49/1000) < fl qy) := by
    simp [inExcl, or_assoc]
  constructor
  · intro hok
    by_contra hnot
    have hexcl : inExcl qx qy = false := by
      cases hcase : inExcl qx qy with
      | false => rfl
      | true => exact absurd (hiff.mp hcase) hnot
    cases hbl : blankRange c.points (m - k) (m + k) with
    | error e =>
      rw [placeStep_eq_error_blank hel hm hp hx hy hexcl hbl] at hok
      cases hok
    | ok pts =>
      cases ha : pyGetI pts m with
      | none =>
        rw [placeStep_eq_error_anchor hel hm hp hx hy hexcl hbl ha] at hok
        cases hok
      | some anchor =>
        rw [placeStep_eq_accept hel hm hp hx hy hexcl hbl ha] at hok
        injection hok with hok
        injection hok with h1 h2
        have hlow : (!st.low) = st.low := congrArg EngState.low h1
        cases hb : st.low <;> rw [hb] at hlow <;> cases hlow
  · intro hcond
    exact placeStep_eq_reject hel hm hp hx hy (hiff.mpr hcond)

unseal Rat.mul Rat.add Rat.inv Rat.sub in
/-- C6 witness: an anchor exactly on the boundary `x = 0.03` is accepted
(the right side of the equivalence is false, so the step does not leave the
state unchanged). -/
theorem c6_witness :
    placeStep ("x") 1 1 16 ⟨false, []⟩ ⟨"1.25", bPts 33⟩ =
        .ok (⟨false, []⟩, ⟨"1.25", bPts 33⟩) ↔
      (fl (3/100) < fl (3/100) ∨ fl (775/1000) < fl (3/100) ∨
       fl (1/50) < fl (13/1000) ∨ fl (49/1000) < fl (1/50)) :=
  c6_exclusion_strict ("x") 1 1 16 ⟨false, []⟩ ⟨"1.25", bPts 33⟩ 11
    ⟨"b11", "0.03", "0.02", "1.25"⟩ (3/100) (1/50)
    (by decide) (by decide) (by decide) (by decide) (by decide)

/-- C3: the spec says the two reversal splices complete and yield
`reverse(co) ++ cn` resp. `cn ++ reverse(co)`; the code instead evaluates
`reversed(co.points) + cn.points`, and `reversed` returns an iterator that
cannot be concatenated with a list, so both cases raise `TypeError`.  Here
two fragments share their head point and stitching raises instead of
splicing. -/
theorem c3_reversed_typeerror :
    stitchAll [⟨"1", [⟨"P", "0", "0", "1"⟩, ⟨"A", "0", "0", "1"⟩]⟩,
               ⟨"1", [⟨"P", "0", "0", "1"⟩, ⟨"B", "0", "0", "1"⟩]⟩] =
      .error errType := by decide

/-- C2: the spec says scanning stops at the first matching chain; the
`continue` statements in the source continue the scan instead, so one
incoming fragment `[x, y]` is spliced into both `[a, x]` (giving
`[a, x, x, y]`) and `[y, c]` (giving `[x, y, y, c]`): two existing chains
are modified for the same `co` in one pass. -/
theorem c2_continue_scans_all :
    stitchAll [⟨"1", [⟨"a", "0", "0", "1"⟩, ⟨"x", "0", "0", "1"⟩]⟩,
               ⟨"1", [⟨"y", "0", "0", "1"⟩, ⟨"c", "0", "0", "1"⟩]⟩,
               ⟨"1", [⟨"x", "0", "0", "1"⟩, ⟨"y", "0", "0", "1"⟩]⟩] =
      .ok [⟨"1", [⟨"a", "0", "0", "1"⟩, ⟨"x", "0", "0", "1"⟩,
                  ⟨"x", "0", "0", "1"⟩, ⟨"y", "0", "0", "1"⟩]⟩,
           ⟨"1", [⟨"x", "0", "0", "1"⟩, ⟨"y", "0", "0", "1"⟩,
                  ⟨"y", "0", "0", "1"⟩, ⟨"c", "0", "0", "1"⟩]⟩] := by decide

/-! Stepping lemmas for the stitch loop, used for C5. -/

theorem stitchGo_cons_nomatch {co : Contour} {acc acc' : List Contour}
    {rest : List Contour} (h : stitchScan co acc = .ok (acc', false)) :
    stitchGo acc (co :: rest) = stitchGo (acc' ++ [co]) rest := by
  simp only [stitchGo, h, Bool.false_eq_true, if_false]

theorem stitchGo_cons_merged {co : Contour} {acc acc' : List Contour}
    {rest : List Contour} (h : stitchScan co acc = .ok (acc', true)) :
    stitchGo acc (co :: rest) = stitchGo acc' rest := by
  simp only [stitchGo, h, if_true]

/-- Scanning a single chain whose tail matches the incoming head (and
nothing else matches) splices `cn ++ co`. -/
theorem stitchScan_single_tail {co cn : Contour} {coH coT cnH cnT : DataPoint}
    (hcoH : co.points.head? = some coH) (hcoT : co.points.getLast? = some coT)
    (hcnH : cn.points.head? = some cnH) (hcnT : cn.points.getLast? = some cnT)
    (h1 : dpEq coH cnH = false) (h2 : dpEq coH cnT = true) :
    stitchScan co [cn] = .ok ([{ cn with points := cn.points ++ co.points }], true) := by
  have hnil : stitchScan co [] = .ok ([], false) := rfl
  simp only [stitchScan, hcoH, hcoT, hcnH, hcnT, h1, h2, Bool.false_eq_true,
    if_false, if_true, hnil]

/-- C5 counterexample: for fragments A (tail P), B (head P, tail Q),
C (head Q) the stitcher produces one chain that is the plain concatenation,
in which the shared endpoint P appears twice, not once as the claim
states. -/
theorem c5_counterexample :
    stitchAll [⟨"1", [⟨"a1", "0", "0", "1"⟩, ⟨"P", "0", "0", "1"⟩]⟩,
               ⟨"1", [⟨"P", "0", "0", "1"⟩, ⟨"Q", "0", "0", "1"⟩]⟩,
               ⟨"1", [⟨"Q", "0", "0", "1"⟩, ⟨"c1", "0", "0", "1"⟩]⟩] =
      .ok [⟨"1", [⟨"a1", "0", "0", "1"⟩, ⟨"P", "0", "0", "1"⟩,
                  ⟨"P", "0", "0", "1"⟩, ⟨"Q", "0", "0", "1"⟩,
                  ⟨"Q", "0", "0", "1"⟩, ⟨"c1", "0", "0", "1"⟩]⟩] ∧
    ¬ ([⟨"a1", "0", "0", "1"⟩, ⟨"P", "0", "0", "1"⟩,
        ⟨"P", "0", "0", "1"⟩, ⟨"Q", "0", "0", "1"⟩,
        ⟨"Q", "0", "0", "1"⟩, ⟨"c1", "0", "0", "1"⟩] : List DataPoint).countP
          (fun p => p.text == "P") = 1 := by decide

/-- C5 amended: for fragments A (tail P), B (head P, tail Q), C (head Q)
with no other endpoint coincidences, stitching yields exactly one chain
whose points are the full concatenation `A ++ B ++ C`, in the correct
order; the shared endpoints P and Q each appear exactly twice in the
resulting chain (once contributed by each adjoining fragment), not
once. -/
theorem c5_amended_concat (lA lB lC P Q : String) (A B C : List DataPoint)
    (a0 aT b0 bT c0 cT : DataPoint)
    (hA0 : A.head? = some a0) (hAT : A.getLast? = some aT)
    (hB0 : B.head? = some b0) (hBT : B.getLast? = some bT)
    (hC0 : C.head? = some c0) (hCT : C.getLast? = some cT)
    (haT : aT.text = P) (hb0 : b0.text = P) (hbT : bT.text = Q)
    (hc0 : c0.text = Q)
    (hne1 : a0.text ≠ P) (hne2 : a0.text ≠ Q)
    (cAP : A.countP (fun p => p.text == P) = 1)
    (cBP : B.countP (fun p => p.text == P) = 1)
    (cCP : C.countP (fun p => p.text == P) = 0)
    (cAQ : A.countP (fun p => p.text == Q) = 0)
    (cBQ : B.countP (fun p => p.text == Q) = 1)
    (cCQ : C.countP (fun p => p.text == Q) = 1) :
    stitchAll [⟨lA, A⟩, ⟨lB, B⟩, ⟨lC, C⟩] = .ok [⟨lA, (A ++ B) ++ C⟩] ∧
    ((A ++ B) ++ C).countP (fun p => p.text == P) = 2 ∧
    ((A ++ B) ++ C).countP (fun p => p.text == Q) = 2 := by
  refine ⟨?_, ?_, ?_⟩
  · have hs2 : stitchScan ⟨lB, B⟩ [⟨lA, A⟩] = .ok ([⟨lA, A ++ B⟩], true) := by
      refine stitchScan_single_tail hB0 hBT hA0 hAT ?_ ?_
      · simp only [dpEq, hb0, beq_eq_false_iff_ne]
        exact fun h => hne1 h.symm
      · simp [dpEq, hb0, haT]
    have hABhead : (A ++ B).head? = some a0 := by
      rw [List.head?_append, hA0]
      rfl
    have hABlast : (A ++ B).getLast? = some bT := by
      rw [List.getLast?_append, hBT]
      rfl
    have hs3 : stitchScan ⟨lC, C⟩ [⟨lA, A ++ B⟩] =
        .ok ([⟨lA, (A ++ B) ++ C⟩], true) := by
      refine stitchScan_single_tail hC0 hCT hABhead hABlast ?_ ?_
      · simp only [dpEq, hc0, beq_eq_false_iff_ne]
        exact fun h => hne2 h.symm
      · simp [dpEq, hc0, hbT]
    have hs1 : stitchScan ⟨lA, A⟩ [] = .ok ([], false) := rfl
    unfold stitchAll
    rw [stitchGo_cons_nomatch hs1, List.nil_append,
      stitchGo_cons_merged hs2, stitchGo_cons_merged hs3]
    rfl
  · simp [List.countP_append, cAP, cBP, cCP]
  · simp [List.countP_append, cAQ, cBQ, cCQ]

/-- The three fragments of the C5 witness. -/
def frAp : List DataPoint := [⟨"a1", "0", "0", "1"⟩, ⟨"P", "0", "0", "1"⟩]

def frBp : List DataPoint := [⟨"P", "0", "0", "1"⟩, ⟨"Q", "0", "0", "1"⟩]

def frCp : List DataPoint := [⟨"Q", "0", "0", "1"⟩, ⟨"c1", "0", "0", "1"⟩]

/-- C5 witness: a concrete instance of the amended splice. -/
theorem c5_witness :
    stitchAll [⟨"1", frAp⟩, ⟨"1", frBp⟩, ⟨"1", frCp⟩] =
      .ok [⟨"1", (frAp ++ frBp) ++ frCp⟩] ∧
    ((frAp ++ frBp) ++ frCp).countP (fun p => p.text == "P") = 2 ∧
    ((frAp ++ frBp) ++ frCp).countP (fun p => p.text == "Q") = 2 :=
  c5_amended_concat ("1") ("1") ("1") ("P") ("Q") frAp frBp frCp
    ⟨"a1", "0", "0", "1"⟩ ⟨"P", "0", "0", "1"⟩ ⟨"P", "0", "0", "1"⟩
    ⟨"Q", "0", "0", "1"⟩ ⟨"Q", "0", "0", "1"⟩ ⟨"c1", "0", "0", "1"⟩
    (by decide) (by decide) (by decide) (by decide) (by decide) (by decide)
    (by decide) (by decide) (by decide) (by decide) (by decide) (by decide)
    (by decide) (by decide) (by decide) (by decide) (by decide) (by decide)

/-- C9: for an input whose parsed fragments share no endpoint (so no
splice happens) and whose chains are all shorter than `2k+1` points (so no
labeling or trimming happens), the pipeline succeeds with no labels, and
the non-blank lines of the trimmed output are exactly the input's data
lines, point for point, in order. -/
theorem c9_round_trip (ot : String) (N M k : ℕ) (lines : List String)
    (hsep : noTouchAll (parseContours lines) = true)
    (hshort : ∀ c ∈ parseContours lines, c.points.length < 2 * k + 1) :
    pipeline ot N M k lines = .ok (trimmedLines (parseContours lines), []) ∧
    (trimmedLines (parseContours lines)).filter (fun l => l ≠ "") =
      dataLines lines := by
  constructor
  · have hstitch := stitchAll_id hsep
    have hplace : placeAll ot N M k ⟨false, []⟩ (parseContours lines) =
        .ok (⟨false, []⟩, parseContours lines) :=
      placeAll_skip (parseContours lines) hshort
    simp only [pipeline, hstitch, hplace]
  · rw [trimmedLines_filter _ (parseContours_nonempty lines),
      parseContours_texts]

/-- The C9 witness input: a comment, two one-point contours separated by a
blank line, no shared endpoints. -/
def linesC9 : List String := ["# a comment", "1 2 3", "", "4 5 6"]

unseal Rat.mul Rat.add Rat.inv Rat.sub in
/-- C9 witness: a concrete round trip. -/
theorem c9_witness :
    pipeline ("x") 1 1 16 linesC9 = .ok (trimmedLines (parseContours linesC9), []) ∧
    (trimmedLines (parseContours linesC9)).filter (fun l => l ≠ "") =
      dataLines linesC9 :=
  c9_round_trip ("x") 1 1 16 linesC9 (by decide) (by decide)

/-- The blanking loop succeeds exactly when the whole window fits:
`m + k ≤ len` (negative indices wrap and are in range because
`len ≥ 2k+1`). -/
theorem blankRange_ok {pts : List DataPoint} {m : ℤ} {k : ℕ}
    (h0 : 0 ≤ m) (hmk : m + k ≤ pts.length) :
    ∃ pts', blankRange pts (m - k) (m + k) = .ok pts' ∧
      pts'.length = pts.length := by
  have hfuel : ((m + k) - (m - k)).toNat = 2 * k := by omega
  unfold blankRange
  rw [hfuel]
  obtain ⟨pts', hok⟩ := blankFrom_ok (2 * k) pts (m - k) (by
    intro j hj
    unfold normIdx
    constructor
    · split
      · next hneg => omega
      · next hneg => omega
    · split
      · next hneg => omega
      · next hneg => omega)
  exact ⟨pts', hok, blankFrom_length _ _ _ _ hok⟩

/-- The input of the C1 counterexample: two 33-point fragments with no
shared endpoints, in-rectangle coordinates and no override tag.  The first
accepted label flips `low`; the second chain then gets the default
two-thirds anchor `m = 22` and the blanking loop walks past the end of the
33-point list, raising `IndexError`. -/
def linesC1 : List String :=
  List.replicate 33 ("0.4 0.02 1.25") ++ List.replicate 33 ("0.41 0.02 1.35")

unseal Rat.mul Rat.add Rat.inv Rat.sub in
/-- C1 counterexample: a syntactically valid input file on which the
placement engine raises (the pipeline aborts with `IndexError` during
blanking), contradicting "no operation of the label placement engine
raises an exception". -/
theorem c1_counterexample : pipeline ("x") 1 1 16 linesC1 = .error errIndex := by
  decide

/-- C1 amended: no operation of the placement engine raises on a
length-eligible chain whose coordinates parse, *provided* the computed
anchor index `m` satisfies `m + k ≤ len`; the window `[m-k, m+k)` then
stays inside the list (negative indices wrap), the exclusion test, the
blanking and the trim all complete normally. -/
theorem c1_amended_no_raise (ot : String) (N M k : ℕ) (st : EngState)
    (c : Contour) (m : ℤ) (p : DataPoint)
    (hk : 1 ≤ k)
    (hel : ¬ c.points.length < 2 * k + 1)
    (hm : chosenM ot N M st.low c.points = .ok m)
    (h0 : 0 ≤ m)
    (hmk : m + k ≤ c.points.length)
    (hp : pyGetI c.points m = some p)
    (hx : (parseQ p.x).isSome) (hy : (parseQ p.y).isSome) :
    ∃ r, placeStep ot N M k st c = .ok r := by
  obtain ⟨qx, hqx⟩ := Option.isSome_iff_exists.mp hx
  obtain ⟨qy, hqy⟩ := Option.isSome_iff_exists.mp hy
  cases hexcl : inExcl qx qy with
  | true => exact ⟨(st, c), placeStep_eq_reject hel hm hp hqx hqy hexcl⟩
  | false =>
    obtain ⟨pts, hbl, hlen⟩ := blankRange_ok h0 hmk
    obtain ⟨anchor, ha⟩ := pyGetI_some h0 (show m < (pts.length : ℤ) by
      rw [hlen]; omega)
    exact ⟨_, placeStep_eq_accept hel hm hp hqx hqy hexcl hbl ha⟩

unseal Rat.mul Rat.add Rat.inv Rat.sub in
/-- C1 witness: a 48-point chain with `m = 16`, `m + k = 32 ≤ 48`
completes normally. -/
theorem c1_witness :
    ∃ r, placeStep ("x") 1 1 16 ⟨false, []⟩ ⟨"1.25", stdPts 48⟩ = .ok r :=
  c1_amended_no_raise ("x") 1 1 16 ⟨false, []⟩ ⟨"1.25", stdPts 48⟩ 16
    ⟨"p16", "0.5", "0.02", "1.25"⟩ (by decide) (by decide) (by decide)
    (by decide) (by decide) (by decide) (by decide) (by decide)

/-- The chain used by the C4 counterexample and witness:
33 points at level `z = 1.75`, which the `cion_rectum` override sends to
`m = int(len * 0.0) = 0`, far below the trim window `[16, 17)`. -/
def cEx4 : Contour := ⟨"1.75", rectPts 33⟩

unseal Rat.mul Rat.add Rat.inv Rat.sub in
/-- C4 counterexample: the override computes `m = 0`, outside `[k, len-k)`
with `k = 16`, and the invocation does *not* fail fast: the step completes
(`toOption` is `some`), emits one label and uses the out-of-range index for
blanking and trimming (the "trimmed" chain has 35 > 33 points because the
negative slice bound wraps). -/
theorem c4_counterexample :
    chosenM ("cion_rectum") 1 1 false cEx4.points = .ok 0 ∧
    ¬ ((16 : ℤ) ≤ 0) ∧
    (placeStep ("cion_rectum") 1 1 16 ⟨false, []⟩ cEx4).toOption.map
      (fun r => (r.1.labels.length, r.2.points.length)) = some (1, 35) := by
  decide

/-- C4 amended: when an override computes `m` with `0 ≤ m < k` for an
accepted, length-eligible chain, no error is raised and no clamping
occurs: the out-of-range index is used directly — the blanking window
wraps around via Python negative indexing and the trim keeps
`2·len + 1 - 2k` points (more than the `len - 2k + 1` of a well-placed
anchor, because the negative slice bound wraps to the end of the list). -/
theorem c4_amended_index_used (ot : String) (N M k : ℕ) (st : EngState)
    (c : Contour) (m : ℤ) (p : DataPoint) (qx qy : ℚ)
    (hk : 1 ≤ k)
    (hel : ¬ c.points.length < 2 * k + 1)
    (hm : chosenM ot N M st.low c.points = .ok m)
    (h0 : 0 ≤ m) (hmlt : m < k)
    (hp : pyGetI c.points m = some p)
    (hx : parseQ p.x = some qx) (hy : parseQ p.y = some qy)
    (hacc : inExcl qx qy = false) :
    ∃ pts anchor, blankRange c.points (m - k) (m + k) = .ok pts ∧
      placeStep ot N M k st c =
        .ok ({ low := !st.low, labels := st.labels ++ [p] },
             { c with points :=
                 pySliceTo pts (m - k) ++ [anchor] ++ pySliceFrom pts (m + k) }) ∧
      (pySliceTo pts (m - k) ++ [anchor] ++ pySliceFrom pts (m + k)).length =
        2 * c.points.length + 1 - 2 * k := by
  obtain ⟨pts, hbl, hlen⟩ := @blankRange_ok c.points m k h0 (by omega)
  obtain ⟨anchor, ha⟩ := pyGetI_some h0 (show m < (pts.length : ℤ) by
    rw [hlen]; omega)
  refine ⟨pts, anchor, hbl,
    placeStep_eq_accept hel hm hp hx hy hacc hbl ha, ?_⟩
  simp only [pySliceTo, pySliceFrom, List.length_append, List.length_take,
    List.length_drop, List.length_singleton]
  rw [if_pos (show m - (k : ℤ) < 0 by omega),
    if_neg (show ¬ m + (k : ℤ) < 0 by omega), hlen]
  omega

unseal Rat.mul Rat.add Rat.inv Rat.sub in
/-- C4 witness: the concrete `cion_rectum` chain with `m = 0`. -/
theorem c4_witness :
    ∃ pts anchor, blankRange cEx4.points ((0 : ℤ) - 16) (0 + 16) = .ok pts ∧
      placeStep ("cion_rectum") 1 1 16 ⟨false, []⟩ cEx4 =
        .ok ({ low := !false, labels := [] ++ [⟨"q0", "0.5", "0.02", "1.75"⟩] },
             { cEx4 with points :=
                 pySliceTo pts ((0 : ℤ) - 16) ++ [anchor] ++ pySliceFrom pts (0 + 16) }) ∧
      (pySliceTo pts ((0 : ℤ) - 16) ++ [anchor] ++ pySliceFrom pts (0 + 16)).length =
        2 * cEx4.points.length + 1 - 2 * 16 :=
  c4_amended_index_used ("cion_rectum") 1 1 16 ⟨false, []⟩ cEx4 0
    ⟨"q0", "0.5", "0.02", "1.75"⟩ (1/2) (1/50) (by decide) (by decide)
    (by decide) (by decide) (by decide) (by decide) (by decide) (by decide)
    (by decide)

/-- C10: on every accepted label at index `m`, the blanking of
`[m-k, m+k)` also clears the anchor's own text field (it lies in the
window since `k ≥ 1`), so the anchor kept in the trimmed chain carries an
empty text — written to the trimmed output as an empty line — while the
recorded label point `p` is the deep copy taken from the chain *before*
blanking, so its text is unaffected. -/
theorem c10_anchor_blanked (ot : String) (N M k : ℕ) (st : EngState)
    (c : Contour) (m : ℤ) (p : DataPoint) (qx qy : ℚ)
    (pts : List DataPoint) (anchor : DataPoint)
    (hk : 1 ≤ k)
    (hel : ¬ c.points.length < 2 * k + 1)
    (hm : chosenM ot N M st.low c.points = .ok m)
    (hp : pyGetI c.points m = some p)
    (hx : parseQ p.x = some qx) (hy : parseQ p.y = some qy)
    (hexcl : inExcl qx qy = false)
    (hbl : blankRange c.points (m - k) (m + k) = .ok pts)
    (ha : pyGetI pts m = some anchor) :
    placeStep ot N M k st c =
      .ok ({ low := !st.low, labels := st.labels ++ [p] },
           { c with points :=
               pySliceTo pts (m - k) ++ [anchor] ++ pySliceFrom pts (m + k) }) ∧
    anchor.text = "" := by
  refine ⟨placeStep_eq_accept hel hm hp hx hy hexcl hbl ha, ?_⟩
  unfold blankRange at hbl
  have hlen : pts.length = c.points.length := blankFrom_length _ _ _ _ hbl
  have htext := blankFrom_text ((m + k - (m - k)).toNat) c.points pts (m - k) k
    hbl (by omega)
  rw [show m - (k : ℤ) + (k : ℕ) = m by omega] at htext
  obtain ⟨p', hget', htext'⟩ := htext
  unfold pyGetI at ha
  split at ha
  · cases ha
  · rw [hlen] at ha
    rw [ha] at hget'
    injection hget' with hget'
    rw [hget']
    exact htext'

/-- The three points of the C10 witness chain. -/
def triPts : List DataPoint :=
  [⟨"t0", "0.5", "0.02", "1"⟩, ⟨"t1", "0.5", "0.02", "1"⟩, ⟨"t2", "0.5", "0.02", "1"⟩]

/-- The same chain after blanking the window `[0, 2)` around `m = 1`,
`k = 1`. -/
def triBlanked : List DataPoint :=
  [⟨"", "0.5", "0.02", "1"⟩, ⟨"", "0.5", "0.02", "1"⟩, ⟨"t2", "0.5", "0.02", "1"⟩]

unseal Rat.mul Rat.add Rat.inv Rat.sub in
/-- C10 witness: a three-point chain with `k = 1`, anchor at `m = 1`; the
retained anchor's text is blanked while the label keeps the original
text. -/
theorem c10_witness :
    placeStep ("x") 1 1 1 ⟨false, []⟩ ⟨"1", triPts⟩ =
      .ok ({ low := !false, labels := [] ++ [⟨"t1", "0.5", "0.02", "1"⟩] },
           (⟨"1", pySliceTo triBlanked ((1 : ℤ) - 1) ++ [⟨"", "0.5", "0.02", "1"⟩] ++
              pySliceFrom triBlanked (1 + 1)⟩ : Contour)) ∧
    DataPoint.text ⟨"", "0.5", "0.02", "1"⟩ = "" :=
  c10_anchor_blanked ("x") 1 1 1 ⟨false, []⟩ ⟨"1", triPts⟩ 1
    ⟨"t1", "0.5", "0.02", "1"⟩ (1/2) (1/50) triBlanked ⟨"", "0.5", "0.02", "1"⟩
    (by decide) (by decide) (by decide) (by decide) (by decide) (by decide)
    (by decide) (by decide) (by decide)

/-! Stepping lemmas for the placement loop, used for C8. -/

theorem placeAll_cons_ok {ot : String} {N M k : ℕ} {st st' : EngState}
    {c c' : Contour} {cs : List Contour}
    (h : placeStep ot N M k st c = .ok (st', c')) :
    placeAll ot N M k st (c :: cs) =
      match placeAll ot N M k st' cs with
      | .error e => .error e
      | .ok (stF, cs') => .ok (stF, c' :: cs') := by
  simp only [placeAll, h]

theorem placeAll_cons_error {ot : String} {N M k : ℕ} {st : EngState}
    {c : Contour} {cs : List Contour} {e : String}
    (h : placeStep ot N M k st c = .error e) :
    placeAll ot N M k st (c :: cs) = .error e := by
  simp only [placeAll, h]

/-- A successful step grows the label list by at most one. -/
theorem placeStep_len_le {ot : String} {N M k : ℕ} {st st' : EngState}
    {c c' : Contour} (h : placeStep ot N M k st c = .ok (st', c')) :
    st'.labels.length ≤ st.labels.length + 1 := by
  rcases placeStep_ok_cases h with ⟨hst, _⟩ | ⟨_, _, p, _, _, _, _, _, _, _, _, _, _, _, hst, _⟩
  · rw [hst]
    omega
  · rw [hst]
    simp

/-- A step that grew the label list must have taken the accept path. -/
theorem placeStep_accept_of_grew {ot : String} {N M k : ℕ} {st st' : EngState}
    {c c' : Contour} (h : placeStep ot N M k st c = .ok (st', c'))
    (hgrow : st.labels.length < st'.labels.length) :
    ¬ c.points.length < 2 * k + 1 ∧
    ∃ m p, chosenM ot N M st.low c.points = .ok m ∧
      pyGetI c.points m = some p ∧
      st' = { low := !st.low, labels := st.labels ++ [p] } := by
  rcases placeStep_ok_cases h with ⟨hst, _⟩ |
    ⟨hel, m, p, _, _, _, _, hm, hp, _, _, _, _, _, hst, _⟩
  · rw [hst] at hgrow
    omega
  · exact ⟨hel, m, p, hm, hp, hst⟩

/-- C8: three consecutively processed chains, none matching any override
rule (the organ/technique tag is none of the four overridden ones), all
accepted (three labels emitted from the `low = false` initial state),
receive the default anchor indices `⌊len₁/3⌋`, `⌊2·len₂/3⌋`, `⌊len₃/3⌋`:
the anchor fractions alternate 1/3, 2/3, 1/3, driven by the `low` flag
that starts false and flips exactly once per accepted label (ending
true). -/
theorem c8_alternation (ot : String) (N M : ℕ) (c1 c2 c3 : Contour)
    (stF : EngState) (csF : List Contour)
    (hot1 : ot ≠ "cion_bladder") (hot2 : ot ≠ "cion_rectum")
    (hot3 : ot ≠ "proton_bladder") (hot4 : ot ≠ "proton_rectum")
    (hb2 : c2.points.length ≤ 2 ^ 51)
    (hrun : placeAll ot N M 16 ⟨false, []⟩ [c1, c2, c3] = .ok (stF, csF))
    (hlab : stF.labels.length = 3) :
    stF.low = true ∧
    ∃ p1 p2 p3, stF.labels = [p1, p2, p3] ∧
      pyGetI c1.points ((c1.points.length / 3 : ℕ) : ℤ) = some p1 ∧
      pyGetI c2.points ((2 * c2.points.length / 3 : ℕ) : ℤ) = some p2 ∧
      pyGetI c3.points ((c3.points.length / 3 : ℕ) : ℤ) = some p3 := by
  cases hs1 : placeStep ot N M 16 ⟨false, []⟩ c1 with
  | error e =>
    rw [placeAll_cons_error hs1] at hrun
    cases hrun
  | ok r1 =>
    obtain ⟨st1, c1'⟩ := r1
    rw [placeAll_cons_ok hs1] at hrun
    cases hs2 : placeStep ot N M 16 st1 c2 with
    | error e =>
      rw [placeAll_cons_error hs2] at hrun
      simp at hrun
    | ok r2 =>
      obtain ⟨st2, c2'⟩ := r2
      rw [placeAll_cons_ok hs2] at hrun
      cases hs3 : placeStep ot N M 16 st2 c3 with
      | error e =>
        rw [placeAll_cons_error hs3] at hrun
        simp at hrun
      | ok r3 =>
        obtain ⟨st3, c3'⟩ := r3
        rw [placeAll_cons_ok hs3] at hrun
        have hnil : placeAll ot N M 16 st3 ([] : List Contour) = .ok (st3, []) := rfl
        rw [hnil] at hrun
        simp at hrun
        have hstF3 : stF = st3 := hrun.1.symm
        rw [hstF3] at hlab
        -- all three steps must have accepted a label
        have hL1 : st1.labels.length ≤ 1 := by simpa using placeStep_len_le hs1
        have hL2 : st2.labels.length ≤ st1.labels.length + 1 := placeStep_len_le hs2
        have hL3 : st3.labels.length ≤ st2.labels.length + 1 := placeStep_len_le hs3
        have hg1 : (⟨false, []⟩ : EngState).labels.length < st1.labels.length := by
          simp only [List.length_nil]
          omega
        obtain ⟨hel1, m1, p1, hm1, hp1, hst1⟩ := placeStep_accept_of_grew hs1 hg1
        have hst1' : st1 = ⟨true, [p1]⟩ := by rw [hst1]; rfl
        have hg2 : st1.labels.length < st2.labels.length := by
          rw [hst1']
          simp only [List.length_singleton]
          omega
        obtain ⟨hel2, m2, p2, hm2, hp2, hst2⟩ := placeStep_accept_of_grew hs2 hg2
        have hst2' : st2 = ⟨false, [p1, p2]⟩ := by rw [hst2, hst1']; rfl
        have hg3 : st2.labels.length < st3.labels.length := by
          rw [hst2']
          simp only [List.length_cons, List.length_nil]
          omega
        obtain ⟨hel3, m3, p3, hm3, hp3, hst3⟩ := placeStep_accept_of_grew hs3 hg3
        have hst3' : st3 = ⟨true, [p1, p2, p3]⟩ := by rw [hst3, hst2']; rfl
        -- the three anchor indices are the defaults
        have hlow1 : st1.low = true := by rw [hst1']
        have hlow2 : st2.low = false := by rw [hst2']
        obtain ⟨q1, hq1⟩ := head?_some_of_pos (l := c1.points) (by omega)
        obtain ⟨q2, hq2⟩ := head?_some_of_pos (l := c2.points) (by omega)
        obtain ⟨q3, hq3⟩ := head?_some_of_pos (l := c3.points) (by omega)
        rw [chosenM_default hq1 hot1 hot2 hot3 hot4] at hm1
        rw [chosenM_default hq2 hot1 hot2 hot3 hot4, hlow1] at hm2
        rw [chosenM_default hq3 hot1 hot2 hot3 hot4, hlow2] at hm3
        injection hm1 with hm1
        injection hm2 with hm2
        injection hm3 with hm3
        have hm1' : m1 = ((c1.points.length / 3 : ℕ) : ℤ) := by
          rw [← hm1, show (⟨false, []⟩ : EngState).low = false from rfl, defaultM_false]
        have hm2' : m2 = ((2 * c2.points.length / 3 : ℕ) : ℤ) := by
          rw [← hm2, defaultM_true (by omega) hb2]
        have hm3' : m3 = ((c3.points.length / 3 : ℕ) : ℤ) := by
          rw [← hm3, defaultM_false]
        refine ⟨by rw [hstF3, hst3'], p1, p2, p3, by rw [hstF3, hst3'], ?_, ?_, ?_⟩
        · rw [← hm1']
          exact hp1
        · rw [← hm2']
          exact hp2
        · rw [← hm3']
          exact hp3

unseal Rat.mul Rat.add Rat.inv Rat.sub in
/-- C8 witness: three concrete no-override chains of lengths 33, 48, 33
(all accepted), whose labels land on indices 11 = ⌊33/3⌋, 32 = ⌊2·48/3⌋
and 11 = ⌊33/3⌋. -/
theorem c8_witness :
    ∃ stF csF,
      placeAll ("x") 1 1 16 ⟨false, []⟩
        [(⟨"1.25", stdPts 33⟩ : Contour), ⟨"1.25", stdPts 48⟩, ⟨"1.25", stdPts 33⟩] =
        .ok (stF, csF) ∧
      stF.labels.length = 3 ∧
      (stF.low = true ∧
        ∃ p1 p2 p3, stF.labels = [p1, p2, p3] ∧
          pyGetI (⟨"1.25", stdPts 33⟩ : Contour).points
            (((⟨"1.25", stdPts 33⟩ : Contour).points.length / 3 : ℕ) : ℤ) = some p1 ∧
          pyGetI (⟨"1.25", stdPts 48⟩ : Contour).points
            ((2 * (⟨"1.25", stdPts 48⟩ : Contour).points.length / 3 : ℕ) : ℤ) = some p2 ∧
          pyGetI (⟨"1.25", stdPts 33⟩ : Contour).points
            (((⟨"1.25", stdPts 33⟩ : Contour).points.length / 3 : ℕ) : ℤ) = some p3) := by
  have h1 : (placeAll ("x") 1 1 16 ⟨false, []⟩
      [(⟨"1.25", stdPts 33⟩ : Contour), ⟨"1.25", stdPts 48⟩,
       ⟨"1.25", stdPts 33⟩]).toOption.map (fun r => r.1.labels.length) = some 3 := by
    decide
  obtain ⟨r, hE⟩ : ∃ r, placeAll ("x") 1 1 16 ⟨false, []⟩
      [(⟨"1.25", stdPts 33⟩ : Contour), ⟨"1.25", stdPts 48⟩,
       ⟨"1.25", stdPts 33⟩] = .ok r := by
    cases hE : placeAll ("x") 1 1 16 ⟨false, []⟩
        [(⟨"1.25", stdPts 33⟩ : Contour), ⟨"1.25", stdPts 48⟩,
         ⟨"1.25", stdPts 33⟩] with
    | error e =>
      rw [hE] at h1
      simp [Except.toOption] at h1
    | ok r => exact ⟨r, rfl⟩
  obtain ⟨stF, csF⟩ := r
  have hlab : stF.labels.length = 3 := by
    rw [hE] at h1
    simpa [Except.toOption] using h1
  exact ⟨stF, csF, hE, hlab,
    c8_alternation ("x") 1 1 ⟨"1.25", stdPts 33⟩ ⟨"1.25", stdPts 48⟩
      ⟨"1.25", stdPts 33⟩ stF csF (by decide) (by decide) (by decide) (by decide)
      (by decide) hE hlab⟩

end MakeContourLabels
